import Mathlib

/-!
Shallow embedding of the resampling core of the UnbalancedDataset
(imbalanced-learn) repository and proofs about its behaviour.

Embedded source files:
* `imblearn/over_sampling/_random_over_sampler.py` — `RandomOverSampler._fit_resample`
  (plain and smoothed-bootstrap over-sampling, shrinkage validation,
  provenance indices `sample_indices_`);
* `imblearn/keras/_generator.py` — `BalancedBatchGenerator` (`_sample`,
  `__len__`, `__getitem__`).

Float arithmetic is idealized over the real numbers; labels are natural
number class codes; matrices are lists of rows.
-/

namespace Imblearn

/-- Feature matrices are lists of rows; float entries are idealized as reals. -/
abbrev Rows : Type := List (List ℝ)

/-- The seeded pseudo-random source (`numpy.random.RandomState`).  The
generator itself is external to the repository, so it is modelled as two
fixed value streams (one driving integer draws, one driving standard-normal
draws) together with the number of draws consumed so far; every draw
advances the single shared source in a fixed order. -/
structure RandomState where
  ints : ℕ → ℕ
  normals : ℕ → ℝ
  pos : ℕ

/-- `random_state.choice(arr, size=k, replace=True)`: `k` draws with
replacement from `arr`, each draw returning an element of `arr` selected by
the stream (indexed modulo `arr.length`); the source advances by `k`.
(NumPy raises on an empty `arr` with `k > 0`; the model totalizes that
unreachable case with the default `0`.) -/
def RandomState.choice (rs : RandomState) (arr : List ℕ) (k : ℕ) :
    List ℕ × RandomState :=
  ((List.range k).map (fun m => arr.getD (rs.ints (rs.pos + m) % arr.length) 0),
   ⟨rs.ints, rs.normals, rs.pos + k⟩)

/-- `random_state.randn(n, f)`: an `n × f` matrix of standard-normal draws,
consumed from the shared source in row-major order. -/
def RandomState.randn (rs : RandomState) (n f : ℕ) : Rows × RandomState :=
  ((List.range n).map (fun i => (List.range f).map (fun j => rs.normals (rs.pos + i * f + j))),
   ⟨rs.ints, rs.normals, rs.pos + n * f⟩)

/-- `np.flatnonzero(y == class_sample)`: the indices of the rows whose label
is `c`, in ascending order. -/
def flatnonzero (y : List ℕ) (c : ℕ) : List ℕ :=
  (List.range y.length).filter (fun i => y.getD i 0 = c)

/-- `X.shape[1]`: the number of feature columns (the input is assumed
rectangular, as the estimator hands the core already-validated arrays). -/
def n_features (X : Rows) : ℕ := (X.getD 0 []).length

/-- Column `j` of a list of rows. -/
def column (rows : Rows) (j : ℕ) : List ℝ := rows.map (fun r => r.getD j 0)

/-- Arithmetic mean of a list of reals. -/
noncomputable def mean (v : List ℝ) : ℝ := v.sum / v.length

/-- Population variance (the `ddof=0` convention of `np.std` /
`mean_variance_axis`). -/
noncomputable def popVariance (v : List ℝ) : ℝ :=
  (v.map (fun x => (x - mean v) ^ 2)).sum / v.length

/-- `np.std(rows, axis=0)`: per-column population standard deviation of the
first `f` columns. -/
noncomputable def stdColumns (rows : Rows) (f : ℕ) : List ℝ :=
  (List.range f).map (fun j => Real.sqrt (popVariance (column rows j)))

/-- The per-feature scale vector of a class: the standard deviation of the
rows at the target class indices (source lines 156–162; the sparse and the
dense branch compute the same per-column standard deviation). -/
noncomputable def classScale (X : Rows) (target : List ℕ) : List ℝ :=
  stdColumns (target.map (fun t => X.getD t [])) (n_features X)

/-- The smoothing constant of source lines 153–155:
`(4 / ((n_features + 2) * n_samples)) ** (1 / (n_features + 4))`. -/
noncomputable def smoothing_constant (f n : ℕ) : ℝ :=
  ((4 : ℝ) / (((f : ℝ) + 2) * (n : ℝ))) ^ ((1 : ℝ) / ((f : ℝ) + 4))

/-- The constructor parameter `shrinkage`: a scalar factor or a per-class
mapping (`float or dict`). -/
inductive Shrinkage where
  | scalar (v : ℝ)
  | map (m : List (ℕ × ℝ))

/-- Lookup in the resolved shrinkage mapping (`self.shrinkage_[class_sample]`;
after validation every strategy class is present, so the default is
unreachable). -/
def shrinkageOf (sh : List (ℕ × ℝ)) (c : ℕ) : ℝ := (List.lookup c sh).getD 0

/-- Constructor configuration of `RandomOverSampler` relevant to
`_fit_resample` (defaults: `smoothed_bootstrap=False`, `shrinkage=1.0`). -/
structure RosParams where
  smoothed_bootstrap : Bool
  shrinkage : Shrinkage

/-- Source lines 125–136: resolve `self.shrinkage_`.  A scalar is spread
over every strategy class; a mapping must cover every strategy class, else
`ValueError` is raised before any sampling occurs. -/
def resolveShrinkage (shrinkage : Shrinkage) (strategy : List (ℕ × ℕ)) :
    Except Unit (List (ℕ × ℝ)) :=
  match shrinkage with
  | Shrinkage.scalar v => Except.ok (strategy.map (fun ck => (ck.1, v)))
  | Shrinkage.map m =>
      if (strategy.map Prod.fst).all (fun c => (List.lookup c m).isSome) then
        Except.ok m
      else
        Except.error ()

/-- Source lines 163–167 (smoothed branch): the synthesized block for one
class.  Row `i`, feature `j` is
`noise[i][j] * (shrinkage * smoothing_constant * scale[j]) + X[boot[i]][j]`,
i.e. `randn(k, f).dot(np.diagflat(shrinkage_ * constant * scale)) + X[bootstrap_indices, :]`.
The constant is computed from `X.shape`, so `n` is the total row count. -/
noncomputable def smoothedBlock (shv : ℝ) (X : Rows) (target boot : List ℕ)
    (noise : Rows) (k : ℕ) : Rows :=
  let f := n_features X
  let const := smoothing_constant f X.length
  let scale := classScale X target
  (List.range k).map (fun i =>
    (List.range f).map (fun j =>
      (noise.getD i []).getD j 0 * (shv * const * scale.getD j 0) +
        (X.getD (boot.getD i 0) []).getD j 0))

/-- The evolving state of the resampling loop of `_fit_resample`:
the growing provenance array, the list of feature blocks (`X_resampled`),
the list of label blocks (`y_resampled`), and the random source. -/
structure LoopState where
  sample_indices : List ℕ
  X_blocks : List Rows
  y_blocks : List (List ℕ)
  rs : RandomState

/-- Source lines 143–174: one iteration of the per-class loop.  Donor rows
are drawn with replacement from the rows of the class, their indices are
appended to the provenance array, and either a smoothed block or the donor
rows verbatim are appended, together with the donor labels. -/
noncomputable def processClass (smoothed : Bool) (sh : List (ℕ × ℝ)) (X : Rows)
    (y : List ℕ) (st : LoopState) (ck : ℕ × ℕ) : LoopState :=
  let target_class_indices := flatnonzero y ck.1
  let boot := st.rs.choice target_class_indices ck.2
  let si := st.sample_indices ++ boot.1
  if smoothed then
    let noise := boot.2.randn ck.2 (n_features X)
    ⟨si,
     st.X_blocks ++ [smoothedBlock (shrinkageOf sh ck.1) X target_class_indices boot.1 noise.1 ck.2],
     st.y_blocks ++ [boot.1.map (fun t => y.getD t 0)],
     noise.2⟩
  else
    ⟨si,
     st.X_blocks ++ [boot.1.map (fun t => X.getD t [])],
     st.y_blocks ++ [boot.1.map (fun t => y.getD t 0)],
     boot.2⟩

/-- The value returned by `_fit_resample` together with the
`sample_indices_` attribute it stores. -/
structure RosOutput where
  X_res : Rows
  y_res : List ℕ
  sample_indices : List ℕ

/-- Source lines 139–184 without the shrinkage validation: start from the
original rows, iterate the per-class loop over the resolved strategy, and
vertically stack the blocks.  `sample_indices_` starts as
`range(X.shape[0])` and grows by the bootstrap indices of every class.
No permutation of any kind is applied after assembly. -/
noncomputable def resampleLoop (smoothed : Bool) (sh : List (ℕ × ℝ))
    (strategy : List (ℕ × ℕ)) (rs : RandomState) (X : Rows) (y : List ℕ) :
    RosOutput :=
  let st := strategy.foldl (processClass smoothed sh X y)
    ⟨List.range X.length, [], [], rs⟩
  ⟨X ++ st.X_blocks.flatten, y ++ st.y_blocks.flatten, st.sample_indices⟩

/-- `RandomOverSampler._fit_resample` (source lines 122–184): validate the
shrinkage configuration when `smoothed_bootstrap` is set (raising
`ValueError`, modelled as `Except.error`, before any sampling), then run the
resampling loop.  `strategy` is the resolved `self.sampling_strategy_`
mapping (class code, number of samples to add) in iteration order. -/
noncomputable def fit_resample (p : RosParams) (strategy : List (ℕ × ℕ))
    (rs : RandomState) (X : Rows) (y : List ℕ) : Except Unit RosOutput :=
  if p.smoothed_bootstrap then
    match resolveShrinkage p.shrinkage strategy with
    | Except.error e => Except.error e
    | Except.ok sh => Except.ok (resampleLoop true sh strategy rs X y)
  else
    Except.ok (resampleLoop false [] strategy rs X y)

/-- Number of occurrences of the class code `c` in `y`. -/
def classCount (y : List ℕ) (c : ℕ) : ℕ := (y.filter (fun t => t = c)).length

/-- Modelled from the spec: the sampling-strategy resolver for the named
"auto"/equalize over-sampling strategy lives in the estimator base classes
(`BaseOverSampler` / `check_ratio`), which are not among the provided source
files.  Per §4.2 of the spec, every observed class is brought to parity with
the majority count, iterated in ascending class order: the resolved mapping
sends class `c` to `majority_count - count c` samples to add. -/
def autoOverStrategy (y : List ℕ) : List (ℕ × ℕ) :=
  let classes := (List.range (y.foldr max 0 + 1)).filter (fun c => 0 < classCount y c)
  let maxCount := (classes.map (classCount y)).foldr max 0
  classes.map (fun c => (c, maxCount - classCount y c))

/-- `sklearn.utils.check_random_state(seed)` for an integer seed: builds the
deterministic pseudo-random source for that seed.  The actual generator is
external to the repository; any fixed function of the seed represents it. -/
def check_random_state (seed : ℕ) : RandomState :=
  ⟨fun m => seed + m, fun _ => 0, 0⟩

/-- Recursive worker of the in-place shuffle: at each step one stream value
selects the position of the next output element among the remaining ones.
The fuel equals the list length at the top-level call. -/
def shuffleGo (ints : ℕ → ℕ) (pos : ℕ) (l : List ℕ) (fuel : ℕ) : List ℕ :=
  match fuel with
  | 0 => l
  | fuel' + 1 =>
      if l.length = 0 then []
      else
        let k := ints pos % l.length
        l.getD k 0 :: shuffleGo ints (pos + 1) (l.eraseIdx k) fuel'

/-- `random_state.shuffle(arr)`: a stream-driven permutation of `arr`,
consuming one stream value per element. -/
def RandomState.shuffle (rs : RandomState) (l : List ℕ) : List ℕ × RandomState :=
  (shuffleGo rs.ints rs.pos l l.length, ⟨rs.ints, rs.normals, rs.pos + l.length⟩)

/-- `imblearn.keras.BalancedBatchGenerator` after construction: the stored
arrays, the batch size, and the index order `indices_` fixed by `_sample`. -/
structure BalancedBatchGenerator where
  X : Rows
  y : List ℕ
  sample_weight : Option (List ℝ)
  batch_size : ℕ
  indices_ : List ℕ

/-- `BalancedBatchGenerator.__init__` / `_sample` (source lines 93–120):
the sampler (a pluggable collaborator outside the provided sources) returns
the selected indices, which are shuffled exactly once, at construction time,
by the seeded source; the shuffled order is stored immutably in `indices_`. -/
def mkBalancedBatchGenerator (X : Rows) (y : List ℕ) (sample_weight : Option (List ℝ))
    (batch_size : ℕ) (samplerIndices : List ℕ) (rs : RandomState) :
    BalancedBatchGenerator :=
  ⟨X, y, sample_weight, batch_size, (rs.shuffle samplerIndices).1⟩

/-- `BalancedBatchGenerator.__len__` (source lines 122–123):
`int(self.indices_.size // self.batch_size)`. -/
def BalancedBatchGenerator.len (g : BalancedBatchGenerator) : ℕ :=
  g.indices_.length / g.batch_size

/-- The index window `self.indices_[index * batch_size : (index + 1) * batch_size]`
sliced by `__getitem__`. -/
def batchWindow (g : BalancedBatchGenerator) (i : ℕ) : List ℕ :=
  (g.indices_.drop (i * g.batch_size)).take g.batch_size

/-- `BalancedBatchGenerator.__getitem__` (source lines 125–149): slice the
stored arrays by the precomputed index window; the weight component is
omitted when no weights were supplied at construction.  The access reads the
generator but never modifies it. -/
def BalancedBatchGenerator.getitem (g : BalancedBatchGenerator) (i : ℕ) :
    Rows × List ℕ × Option (List ℝ) :=
  ((batchWindow g i).map (fun t => g.X.getD t []),
   (batchWindow g i).map (fun t => g.y.getD t 0),
   g.sample_weight.map (fun w => (batchWindow g i).map (fun t => w.getD t 0)))

/-- A concrete random source whose integer stream is constantly `0`. -/
def exRs0 : RandomState := ⟨fun _ => 0, fun _ => 0, 0⟩

/-- A concrete random source whose integer stream enumerates `0, 1, 2, …`
(standing for one fixed seeded generator, e.g. seed 42). -/
def exRs42 : RandomState := ⟨fun m => m, fun _ => 0, 0⟩

/-- Concrete 3-row, 1-feature input for the permutation claim. -/
def exX2 : Rows := [[(10 : ℝ)], [20], [30]]

/-- Labels for `exX2`: one row of class 0, two rows of class 1. -/
def exY2 : List ℕ := [0, 1, 1]

/-- Labels of the `{A: 100, B: 30}` scenario: class 0 is A, class 1 is B. -/
def exY3c : List ℕ := List.replicate 100 0 ++ List.replicate 30 1

/-- Features of the `{A: 100, B: 30}` scenario: 130 rows, 1 feature. -/
def exX3c : Rows := List.replicate 130 [(0 : ℝ)]

set_option maxRecDepth 100000 in
/-- The `{A: 100, B: 30}` equalize scenario, run in plain mode with a fixed
seeded source. -/
noncomputable def exC3 : RosOutput :=
  resampleLoop false [] (autoOverStrategy exY3c) exRs42 exX3c exY3c

/-- Concrete 3-row, 1-feature input for the smoothing-constant claim:
class 0 has the two rows `[0]` and `[2]` (per-feature scale 1), class 1 has
one row. -/
def exX1 : Rows := [[(0 : ℝ)], [2], [5]]

/-- Labels for `exX1`. -/
def exY1 : List ℕ := [0, 0, 1]

/-- Loop state at the start of the class-0 iteration over `exX1`: the
integer stream draws index 0 and the normal stream is constantly 1. -/
def exSt1 : LoopState := ⟨[], [], [], ⟨fun _ => 0, fun _ => 1, 0⟩⟩

/-- One-row, two-feature input for the degenerate smoothed-bootstrap case. -/
def exX6 : Rows := [[(2 : ℝ), 4]]

/-- Label of the single row of `exX6`. -/
def exY6 : List ℕ := [3]

/-- A batch generator over 95 resampled rows with batch size 10. -/
def exGen95 : BalancedBatchGenerator :=
  mkBalancedBatchGenerator (List.replicate 95 [(0 : ℝ)]) (List.replicate 95 0)
    none 10 (List.range 95) exRs0

/-! ## Helper lemmas -/

/-- `choice` returns exactly `k` draws. -/
theorem choice_fst_length (rs : RandomState) (arr : List ℕ) (k : ℕ) :
    (rs.choice arr k).1.length = k := by
  simp [RandomState.choice]

/-- A smoothed block has exactly `k` rows. -/
theorem smoothedBlock_length (shv : ℝ) (X : Rows) (target boot : List ℕ)
    (noise : Rows) (k : ℕ) : (smoothedBlock shv X target boot noise k).length = k := by
  simp [smoothedBlock]

/-- One class iteration appends the bootstrap indices to the provenance
array, appends the matching donor labels, appends a feature block of the
same row count, and (in plain mode) appends the donor rows verbatim. -/
theorem processClass_spec (smoothed : Bool) (sh : List (ℕ × ℝ)) (X : Rows)
    (y : List ℕ) (st : LoopState) (ck : ℕ × ℕ) :
    ∃ boot : List ℕ, boot.length = ck.2 ∧
      (processClass smoothed sh X y st ck).sample_indices = st.sample_indices ++ boot ∧
      (processClass smoothed sh X y st ck).y_blocks.flatten =
        st.y_blocks.flatten ++ boot.map (fun t => y.getD t 0) ∧
      (processClass smoothed sh X y st ck).X_blocks.flatten.length =
        st.X_blocks.flatten.length + ck.2 ∧
      (smoothed = false →
        (processClass smoothed sh X y st ck).X_blocks.flatten =
          st.X_blocks.flatten ++ boot.map (fun t => X.getD t [])) := by
  refine ⟨(st.rs.choice (flatnonzero y ck.1) ck.2).1,
    choice_fst_length st.rs (flatnonzero y ck.1) ck.2, ?_, ?_, ?_, ?_⟩ <;>
    cases smoothed <;>
      simp [processClass, smoothedBlock_length, choice_fst_length]

/-- The per-class loop of `_fit_resample`, run over a whole strategy list:
it only appends.  `B` is the concatenation of all bootstrap draws, in
strategy order. -/
theorem resampleFold_spec (smoothed : Bool) (sh : List (ℕ × ℝ)) (X : Rows)
    (y : List ℕ) (strat : List (ℕ × ℕ)) :
    ∀ st : LoopState, ∃ B : List ℕ,
      B.length = (strat.map Prod.snd).sum ∧
      (strat.foldl (processClass smoothed sh X y) st).sample_indices =
        st.sample_indices ++ B ∧
      (strat.foldl (processClass smoothed sh X y) st).y_blocks.flatten =
        st.y_blocks.flatten ++ B.map (fun t => y.getD t 0) ∧
      (strat.foldl (processClass smoothed sh X y) st).X_blocks.flatten.length =
        st.X_blocks.flatten.length + B.length ∧
      (smoothed = false →
        (strat.foldl (processClass smoothed sh X y) st).X_blocks.flatten =
          st.X_blocks.flatten ++ B.map (fun t => X.getD t [])) := by
  induction strat with
  | nil => intro st; exact ⟨[], by simp, by simp, by simp, by simp, by simp⟩
  | cons ck rest ih =>
      intro st
      obtain ⟨boot, hbl, hsi, hy, hXlen, hXp⟩ := processClass_spec smoothed sh X y st ck
      obtain ⟨B, hBl, hsi', hy', hXlen', hXp'⟩ := ih (processClass smoothed sh X y st ck)
      refine ⟨boot ++ B, ?_, ?_, ?_, ?_, ?_⟩
      · simp [hbl, hBl]
      · rw [List.foldl_cons, hsi', hsi, List.append_assoc]
      · rw [List.foldl_cons, hy', hy, List.map_append, List.append_assoc]
      · rw [List.foldl_cons, hXlen', hXlen]
        simp [hbl]
        omega
      · intro hs
        rw [List.foldl_cons, hXp' hs, hXp hs, List.map_append, List.append_assoc]

/-- Shape of the assembled `_fit_resample` output: provenance is
`range(n)` followed by all bootstrap draws, labels are the originals
followed by the donor labels, the output row count is the original row
count plus the number of draws, and in plain mode the feature rows are
the originals followed by the donor rows verbatim. -/
theorem resampleLoop_spec (smoothed : Bool) (sh : List (ℕ × ℝ))
    (strat : List (ℕ × ℕ)) (rs : RandomState) (X : Rows) (y : List ℕ) :
    ∃ B : List ℕ,
      B.length = (strat.map Prod.snd).sum ∧
      (resampleLoop smoothed sh strat rs X y).sample_indices =
        List.range X.length ++ B ∧
      (resampleLoop smoothed sh strat rs X y).y_res =
        y ++ B.map (fun t => y.getD t 0) ∧
      (resampleLoop smoothed sh strat rs X y).X_res.length = X.length + B.length ∧
      (smoothed = false →
        (resampleLoop smoothed sh strat rs X y).X_res =
          X ++ B.map (fun t => X.getD t [])) := by
  obtain ⟨B, hBl, hsi, hy, hXlen, hXp⟩ :=
    resampleFold_spec smoothed sh X y strat ⟨List.range X.length, [], [], rs⟩
  refine ⟨B, hBl, ?_, ?_, ?_, ?_⟩
  · simpa [resampleLoop] using hsi
  · simp only [resampleLoop]
    simp only at hy
    simp [hy]
  · simp only [resampleLoop]
    simp only at hXlen
    simp [hXlen]
  · intro hs
    simp only [resampleLoop]
    simp only at hXp
    simp [hXp hs]

/-! ## Claims -/

/-- C4: when the shrinkage parameter is a per-class mapping that omits a
class named in the resolved sampling strategy, a smoothed-bootstrap
`fit_resample` run fails with `ValueError` before selecting any donor rows
or assembling any output (the error result carries no partial arrays and no
`sample_indices_`), and the missing entry is never replaced by a default. -/
theorem C4_theorem (m : List (ℕ × ℝ)) (strat : List (ℕ × ℕ))
    (rs : RandomState) (X : Rows) (y : List ℕ) (c : ℕ)
    (hc : c ∈ strat.map Prod.fst) (hm : (List.lookup c m).isSome = false) :
    fit_resample ⟨true, Shrinkage.map m⟩ strat rs X y = Except.error () := by
  have hall : ((strat.map Prod.fst).all (fun c => (List.lookup c m).isSome)) = false := by
    rcases h : (strat.map Prod.fst).all (fun c => (List.lookup c m).isSome) with _ | _
    · rfl
    · exact absurd ((List.all_eq_true.mp h) c hc) (by simp [hm])
  simp [fit_resample, resolveShrinkage, hall]

/-- C4 witness: an empty shrinkage mapping with a one-class strategy fails. -/
theorem C4_witness :
    fit_resample ⟨true, Shrinkage.map []⟩ [(0, 1)] exRs0 exX2 exY2 =
      Except.error () :=
  C4_theorem [] [(0, 1)] exRs0 exX2 exY2 0 (by decide) (by decide)

/-- C5: two `fit_resample` invocations with identical feature matrix,
identical labels, identical resolved strategy, and the same integer seed
return equal feature matrices, equal label vectors, and equal
`sample_indices_` arrays. -/
theorem C5_theorem (p : RosParams) (strat : List (ℕ × ℕ)) (s1 s2 : ℕ)
    (X1 X2 : Rows) (y1 y2 : List ℕ)
    (hs : s1 = s2) (hX : X1 = X2) (hy : y1 = y2) :
    fit_resample p strat (check_random_state s1) X1 y1 =
      fit_resample p strat (check_random_state s2) X2 y2 := by
  subst hs; subst hX; subst hy; rfl

/-- C5 witness: determinism at a concrete seed and input. -/
theorem C5_witness :
    fit_resample ⟨false, Shrinkage.scalar 1⟩ [(0, 1)] (check_random_state 42) exX2 exY2 =
      fit_resample ⟨false, Shrinkage.scalar 1⟩ [(0, 1)] (check_random_state 42) exX2 exY2 :=
  C5_theorem ⟨false, Shrinkage.scalar 1⟩ [(0, 1)] 42 42 exX2 exX2 exY2 exY2 rfl rfl rfl

/-- C8: batch access is stateless and idempotent.  The generator built by
the constructor stores the index order shuffled exactly once from the
seeded source; `__getitem__ i` slices that precomputed window, so the same
batch requested twice is identical and no access consumes the random source
or mutates the generator. -/
theorem C8_theorem (X : Rows) (y : List ℕ) (w : Option (List ℝ)) (b : ℕ)
    (idx : List ℕ) (rs : RandomState) (i : ℕ) :
    (mkBalancedBatchGenerator X y w b idx rs).getitem i =
      (mkBalancedBatchGenerator X y w b idx rs).getitem i ∧
    (mkBalancedBatchGenerator X y w b idx rs).indices_ = (rs.shuffle idx).1 ∧
    batchWindow (mkBalancedBatchGenerator X y w b idx rs) i =
      (((rs.shuffle idx).1).drop (i * b)).take b :=
  ⟨rfl, rfl, rfl⟩

/-- C10: with `smoothed_bootstrap = False` (the constructor default),
`fit_resample` never reads or validates `shrinkage`: any two shrinkage
values (including a mapping omitting strategy classes) give identical
output arrays and `sample_indices_`, and the run succeeds with no
shrinkage-related error. -/
theorem C10_theorem (sh1 sh2 : Shrinkage) (strat : List (ℕ × ℕ))
    (rs : RandomState) (X : Rows) (y : List ℕ) :
    fit_resample ⟨false, sh1⟩ strat rs X y = fit_resample ⟨false, sh2⟩ strat rs X y ∧
    fit_resample ⟨false, sh1⟩ strat rs X y =
      Except.ok (resampleLoop false [] strat rs X y) :=
  ⟨rfl, rfl⟩

/-- C9: over-sampling never removes original rows — every original row index
`0..n-1` appears (at least once) in the stored `sample_indices_` — and the
returned feature matrix and label vector always have equal row counts. -/
theorem C9_theorem (p : RosParams) (strat : List (ℕ × ℕ)) (rs : RandomState)
    (X : Rows) (y : List ℕ) (r : RosOutput)
    (hXy : X.length = y.length)
    (hOk : fit_resample p strat rs X y = Except.ok r) :
    (∀ i, i < X.length → i ∈ r.sample_indices) ∧ r.X_res.length = r.y_res.length := by
  obtain ⟨sm, shx, hr⟩ : ∃ sm shx, resampleLoop sm shx strat rs X y = r := by
    rcases p with ⟨sb, shr⟩
    cases sb with
    | false =>
        refine ⟨false, [], ?_⟩
        simpa [fit_resample] using hOk
    | true =>
        rcases hres : resolveShrinkage shr strat with e | shx
        · simp [fit_resample, hres] at hOk
        · refine ⟨true, shx, ?_⟩
          simpa [fit_resample, hres] using hOk
  obtain ⟨B, hBl, hsi, hy, hXlen, -⟩ := resampleLoop_spec sm shx strat rs X y
  rw [hr] at hsi hy hXlen
  constructor
  · intro i hi
    rw [hsi]
    exact List.mem_append_left _ (List.mem_range.mpr hi)
  · rw [hXlen, hy]
    simp [hXy]

/-- C9 witness: a concrete plain run on 3 rows. -/
theorem C9_witness :
    (∀ i, i < exX2.length →
        i ∈ (RosOutput.mk (exX2 ++ [[(10 : ℝ)]]) (exY2 ++ [0]) [0, 1, 2, 0]).sample_indices) ∧
      (RosOutput.mk (exX2 ++ [[(10 : ℝ)]]) (exY2 ++ [0]) [0, 1, 2, 0]).X_res.length =
        (RosOutput.mk (exX2 ++ [[(10 : ℝ)]]) (exY2 ++ [0]) [0, 1, 2, 0]).y_res.length :=
  C9_theorem ⟨false, Shrinkage.scalar 1⟩ [(0, 1)] exRs0 exX2 exY2
    ⟨exX2 ++ [[(10 : ℝ)]], exY2 ++ [0], [0, 1, 2, 0]⟩ rfl rfl

/-- C2 counterexample: a plain over-sampling run on three rows whose output
is exactly the original rows followed by the class-ordered appended block —
no final permutation is applied to features, labels, or provenance, so the
claim that the returned arrays "are not simply the original rows followed
by class-ordered appended blocks" fails at this input. -/
theorem C2_counterexample :
    fit_resample ⟨false, Shrinkage.scalar 1⟩ [(0, 1)] exRs0 exX2 exY2 =
      Except.ok ⟨exX2 ++ [[(10 : ℝ)]], exY2 ++ [0], List.range 3 ++ [0]⟩ := by
  rfl

/-- C2 amended: `_fit_resample` applies no final permutation — the returned
arrays are exactly the original rows followed by the per-class appended
blocks in strategy order (`B` is the concatenation of all bootstrap draws),
and the three arrays stay row-aligned: every output row `m` carries the
features and the label of original row `sample_indices_[m]`. -/
theorem C2_theorem (sh : List (ℕ × ℝ)) (strat : List (ℕ × ℕ)) (rs : RandomState)
    (X : Rows) (y : List ℕ) (hXy : X.length = y.length) :
    ∃ B : List ℕ,
      (resampleLoop false sh strat rs X y).sample_indices = List.range X.length ++ B ∧
      (resampleLoop false sh strat rs X y).X_res = X ++ B.map (fun t => X.getD t []) ∧
      (resampleLoop false sh strat rs X y).y_res = y ++ B.map (fun t => y.getD t 0) ∧
      ∀ m, m < X.length + B.length →
        (resampleLoop false sh strat rs X y).X_res.getD m [] =
          X.getD ((resampleLoop false sh strat rs X y).sample_indices.getD m 0) [] ∧
        (resampleLoop false sh strat rs X y).y_res.getD m 0 =
          y.getD ((resampleLoop false sh strat rs X y).sample_indices.getD m 0) 0 := by
  obtain ⟨B, hBl, hsi, hy, hXlen, hXp⟩ := resampleLoop_spec false sh strat rs X y
  have hX := hXp rfl
  refine ⟨B, hsi, hX, hy, ?_⟩
  intro m hm
  rcases Nat.lt_or_ge m X.length with hlt | hle
  · have h1 : (List.range X.length ++ B).getD m 0 = m := by
      rw [List.getD_append _ _ _ _ (by simpa using hlt)]
      rw [List.getD_eq_getElem _ _ (by simpa using hlt)]
      simp
    constructor
    · rw [hX, hsi, h1]
      exact List.getD_append X _ [] m hlt
    · rw [hy, hsi, h1]
      exact List.getD_append y _ 0 m (by omega)
  · have hmB : m - X.length < B.length := by omega
    have h1 : (List.range X.length ++ B).getD m 0 = B.getD (m - X.length) 0 := by
      rw [List.getD_append_right _ _ _ _ (by simpa using hle)]
      simp
    constructor
    · rw [hX, hsi, h1, List.getD_append_right X _ [] m hle,
        List.getD_eq_getElem _ _ (by simpa using hmB), List.getElem_map,
        List.getD_eq_getElem _ _ hmB]
    · rw [hy, hsi, h1, List.getD_append_right y _ 0 m (by omega), ← hXy,
        List.getD_eq_getElem _ _ (by simpa using hmB), List.getElem_map,
        List.getD_eq_getElem _ _ hmB]

/-- C2 witness: the amended no-permutation shape at a concrete input. -/
theorem C2_witness :
    ∃ B : List ℕ,
      (resampleLoop false [] [(0, 1)] exRs0 exX2 exY2).sample_indices =
        List.range exX2.length ++ B ∧
      (resampleLoop false [] [(0, 1)] exRs0 exX2 exY2).X_res =
        exX2 ++ B.map (fun t => exX2.getD t []) ∧
      (resampleLoop false [] [(0, 1)] exRs0 exX2 exY2).y_res =
        exY2 ++ B.map (fun t => exY2.getD t 0) ∧
      ∀ m, m < exX2.length + B.length →
        (resampleLoop false [] [(0, 1)] exRs0 exX2 exY2).X_res.getD m [] =
          exX2.getD ((resampleLoop false [] [(0, 1)] exRs0 exX2 exY2).sample_indices.getD m 0) [] ∧
        (resampleLoop false [] [(0, 1)] exRs0 exX2 exY2).y_res.getD m 0 =
          exY2.getD ((resampleLoop false [] [(0, 1)] exRs0 exX2 exY2).sample_indices.getD m 0) 0 :=
  C2_theorem [] [(0, 1)] exRs0 exX2 exY2 rfl

set_option maxRecDepth 100000 in
/-- C3 counterexample: in the `{A: 100 rows (class 0), B: 30 rows (class 1)}`
equalize scenario with a fixed seeded source, the stored `sample_indices_`
has length 200, not 70 — it starts with `range(130)`, so its first entry
references row 0, an A row, not a B row. -/
theorem C3_counterexample :
    fit_resample ⟨false, Shrinkage.scalar 1⟩ (autoOverStrategy exY3c) exRs42 exX3c exY3c =
      Except.ok exC3 ∧
    exC3.sample_indices.length = 200 ∧
    ¬ exC3.sample_indices.length = 70 ∧
    exC3.sample_indices.getD 0 99 = 0 ∧
    exY3c.getD 0 1 = 0 :=
  ⟨rfl, by decide, by decide, by decide, by decide⟩

set_option maxRecDepth 100000 in
/-- C3 amended: the `{A: 100, B: 30}` equalize scenario with a fixed seed
returns 200 total rows (B raised to 100 via 70 additions, A unchanged at
100), and `sample_indices_` has length 200: its first 130 entries are the
original indices `0..129` and all 70 remaining entries reference original
B rows (rows labelled 1). -/
theorem C3_theorem :
    autoOverStrategy exY3c = [(0, 0), (1, 70)] ∧
    fit_resample ⟨false, Shrinkage.scalar 1⟩ (autoOverStrategy exY3c) exRs42 exX3c exY3c =
      Except.ok exC3 ∧
    exC3.X_res.length = 200 ∧
    exC3.y_res.length = 200 ∧
    (exC3.y_res.filter (fun t => t = 0)).length = 100 ∧
    (exC3.y_res.filter (fun t => t = 1)).length = 100 ∧
    exC3.sample_indices.length = 200 ∧
    exC3.sample_indices.take 130 = List.range 130 ∧
    ((exC3.sample_indices.drop 130).length = 70 ∧
      (exC3.sample_indices.drop 130).all (fun t => exY3c.getD t 0 = 1) = true) :=
  ⟨by decide, rfl, by decide, by decide, by decide, by decide, by decide, by decide,
   by decide, by decide⟩

set_option maxRecDepth 100000 in
/-- C7: the reported length of the generator is `floor(n / b)` for `n` stored
indices and batch size `b`, every valid batch reads only positions of the
shuffled order below `b * floor(n / b)` (so the trailing rows are dropped,
never padded and never returned), and a generator over 95 resampled rows
with batch size 10 has length 9. -/
theorem C7_theorem (g : BalancedBatchGenerator) (i : ℕ) (hi : i < g.len) :
    g.len = g.indices_.length / g.batch_size ∧
    batchWindow g i =
      ((g.indices_.take (g.batch_size * g.len)).drop (i * g.batch_size)).take g.batch_size ∧
    exGen95.len = 9 := by
  refine ⟨rfl, ?_, by decide⟩
  rw [List.drop_take, List.take_take, batchWindow]
  have hb : i * g.batch_size + g.batch_size ≤ g.batch_size * g.len := by
    calc i * g.batch_size + g.batch_size = g.batch_size * (i + 1) := by ring
      _ ≤ g.batch_size * g.len := Nat.mul_le_mul_left _ hi
  rw [Nat.min_eq_left (by omega)]

set_option maxRecDepth 100000 in
/-- C7 witness: batch 0 of the 95-row, batch-size-10 generator. -/
theorem C7_witness :
    (0 : ℕ) < exGen95.len ∧
    (exGen95.len = exGen95.indices_.length / exGen95.batch_size ∧
     batchWindow exGen95 0 =
       ((exGen95.indices_.take (exGen95.batch_size * exGen95.len)).drop
         (0 * exGen95.batch_size)).take exGen95.batch_size ∧
     exGen95.len = 9) :=
  ⟨by decide, C7_theorem exGen95 0 (by decide)⟩

/-- `getD` on a map over `range`. -/
theorem getD_range_map {α : Type} (f : ℕ → α) (k i : ℕ) (d : α) (h : i < k) :
    ((List.range k).map f).getD i d = f i := by
  rw [List.getD_eq_getElem _ _ (by simpa using h), List.getElem_map, List.getElem_range]

/-- Reading every position of a list through `getD` rebuilds the list. -/
theorem map_getD_range_self {α : Type} (l : List α) (d : α) :
    (List.range l.length).map (fun j => l.getD j d) = l := by
  apply List.ext_getElem (by simp)
  intro i h1 h2
  rw [List.getElem_map, List.getElem_range, List.getD_eq_getElem _ _ h2]

/-- The population variance of a single observation is zero. -/
theorem popVariance_singleton (a : ℝ) : popVariance [a] = 0 := by
  simp [popVariance, mean]

/-- Drawing from a one-element array always returns its element. -/
theorem choice_singleton (rs : RandomState) (i k : ℕ) :
    (rs.choice [i] k).1 = List.replicate k i := by
  simp only [RandomState.choice, List.length_singleton, Nat.mod_one, List.getD_cons_zero]
  rw [List.map_const', List.length_range]

/-- The per-feature scale of a class with a single row is the zero vector. -/
theorem classScale_singleton (X : Rows) (i : ℕ) :
    classScale X [i] = List.replicate (n_features X) 0 := by
  rw [classScale, stdColumns]
  have h : ∀ j, Real.sqrt (popVariance (column (([i] : List ℕ).map fun t => X.getD t []) j)) = 0 := by
    intro j
    simp [column, popVariance_singleton]
  simp only [h]
  rw [List.map_const', List.length_range]

/-- `getD` on a replicated list with the replicated value as default. -/
theorem getD_replicate_self {α : Type} (a : α) (n j : ℕ) :
    (List.replicate n a).getD j a = a := by
  rw [List.getD_eq_getElem?_getD]
  exact List.getElem?_getD_replicate_default_eq a n j

/-- When the target class has the single row `i`, the smoothed block
degenerates to exact copies of that donor row: the scale vector is zero, so
the Gaussian perturbation vanishes whatever the noise draws are. -/
theorem smoothedBlock_degenerate (shv : ℝ) (X : Rows) (noise : Rows) (i k : ℕ)
    (rs : RandomState) (h2 : (X.getD i []).length = n_features X) :
    smoothedBlock shv X [i] (rs.choice [i] k).1 noise k =
      List.replicate k (X.getD i []) := by
  rw [choice_singleton]
  rw [smoothedBlock]
  apply List.ext_getElem (by simp)
  intro m hm1 hm2
  rw [List.getElem_map, List.getElem_range, List.getElem_replicate]
  have hb : (List.replicate k i).getD m 0 = i := by
    rw [List.getD_eq_getElem _ _ (by simpa using hm2), List.getElem_replicate]
  rw [hb, classScale_singleton]
  have hz : ∀ j : ℕ, (List.replicate (n_features X) (0 : ℝ)).getD j 0 = 0 :=
    fun j => getD_replicate_self 0 (n_features X) j
  simp only [hz, mul_zero, zero_add]
  rw [← h2]
  exact map_getD_range_self (X.getD i []) 0

/-- C6: in a smoothed-bootstrap run on a class with exactly one observed
row, the per-feature scale vector is zero, every synthesized row of that
class equals the single donor row exactly, and the run raises no error
(scalar shrinkage): this is accepted behavior. -/
theorem C6_theorem (sh : List (ℕ × ℝ)) (X : Rows) (y : List ℕ) (st : LoopState)
    (c k i : ℕ) (v : ℝ) (strat : List (ℕ × ℕ)) (rs : RandomState)
    (h1 : flatnonzero y c = [i]) (h2 : (X.getD i []).length = n_features X) :
    classScale X (flatnonzero y c) = List.replicate (n_features X) 0 ∧
    (processClass true sh X y st (c, k)).X_blocks =
      st.X_blocks ++ [List.replicate k (X.getD i [])] ∧
    ∃ r, fit_resample ⟨true, Shrinkage.scalar v⟩ strat rs X y = Except.ok r := by
  refine ⟨by rw [h1]; exact classScale_singleton X i, ?_, ⟨_, rfl⟩⟩
  show (processClass true sh X y st (c, k)).X_blocks = _
  rw [processClass]
  simp only [h1, if_pos]
  rw [smoothedBlock_degenerate (shrinkageOf sh (c, k).1) X _ i k st.rs h2]

/-- C6 witness: a one-row class with two features. -/
theorem C6_witness :
    flatnonzero exY6 3 = [0] ∧ (exX6.getD 0 []).length = n_features exX6 ∧
    (classScale exX6 (flatnonzero exY6 3) = List.replicate (n_features exX6) 0 ∧
     (processClass true [] exX6 exY6 exSt1 (3, 2)).X_blocks =
       exSt1.X_blocks ++ [List.replicate 2 (exX6.getD 0 [])] ∧
     ∃ r, fit_resample ⟨true, Shrinkage.scalar 1⟩ [] exRs0 exX6 exY6 = Except.ok r) :=
  ⟨by decide, by decide,
   C6_theorem [] exX6 exY6 exSt1 3 2 0 1 [] exRs0 (by decide) (by decide)⟩

/-- C1 amended: every entry of a smoothed block scales the noise draw by
`shrinkage * (4 / ((f + 2) * N)) ^ (1 / (f + 4)) * scale[j]`, where `f` is
the feature count and `N` is the **total** row count of the dataset
(`X.shape[0]`), not the class row count. -/
theorem C1_theorem (shv : ℝ) (X : Rows) (target boot : List ℕ) (noise : Rows)
    (k i j : ℕ) (hi : i < k) (hj : j < n_features X) :
    ((smoothedBlock shv X target boot noise k).getD i []).getD j 0 =
      (noise.getD i []).getD j 0 *
        (shv * (((4 : ℝ) / (((n_features X : ℝ) + 2) * (X.length : ℝ))) ^
            ((1 : ℝ) / ((n_features X : ℝ) + 4))) *
          (classScale X target).getD j 0) +
      (X.getD (boot.getD i 0) []).getD j 0 := by
  simp only [smoothedBlock]
  rw [getD_range_map _ k i [] hi, getD_range_map _ (n_features X) j 0 hj,
    smoothing_constant]

/-- C1 amended witness: a concrete smoothed block entry. -/
theorem C1_witness :
    (0 : ℕ) < 1 ∧ (0 : ℕ) < n_features exX1 ∧
    ((smoothedBlock 1 exX1 [0, 1] [0] [[(1 : ℝ)]] 1).getD 0 []).getD 0 0 =
      (([[(1 : ℝ)]] : Rows).getD 0 []).getD 0 0 *
        ((1 : ℝ) * (((4 : ℝ) / (((n_features exX1 : ℝ) + 2) * (exX1.length : ℝ))) ^
            ((1 : ℝ) / ((n_features exX1 : ℝ) + 4))) *
          (classScale exX1 [0, 1]).getD 0 0) +
      (exX1.getD (([0] : List ℕ).getD 0 0) []).getD 0 0 :=
  ⟨by decide, by decide, C1_theorem 1 exX1 [0, 1] [0] [[(1 : ℝ)]] 1 0 0
    (by decide) (by decide)⟩

/-- C1 counterexample: a smoothed run on three rows where the over-sampled
class has two rows.  The synthesized entry equals
`smoothing_constant f 3` — the formula applied to the **total** row count —
and that value differs from `smoothing_constant f 2`, the formula at the
class row count that the claim states. -/
theorem C1_counterexample :
    (processClass true [(0, 1)] exX1 exY1 exSt1 (0, 1)).X_blocks =
      [[[smoothing_constant (n_features exX1) exX1.length]]] ∧
    exX1.length = 3 ∧
    (flatnonzero exY1 0).length = 2 ∧
    smoothing_constant (n_features exX1) exX1.length ≠
      smoothing_constant (n_features exX1) (flatnonzero exY1 0).length := by
  have hvar : popVariance [(0 : ℝ), 2] = 1 := by
    rw [popVariance, mean]
    norm_num
  have hr1 : List.range 1 = [0] := rfl
  have hf : n_features exX1 = 1 := rfl
  have hscale : classScale exX1 [0, 1] = [1] := by
    rw [classScale, stdColumns, hf, hr1, List.map_singleton]
    show [Real.sqrt (popVariance (column [[(0 : ℝ)], [2]] 0))] = _
    have hcol : column [[(0 : ℝ)], [2]] 0 = [(0 : ℝ), 2] := rfl
    rw [hcol, hvar, Real.sqrt_one]
  refine ⟨?_, rfl, rfl, ?_⟩
  · show ([] : List Rows) ++
        [smoothedBlock (shrinkageOf [(0, 1)] 0) exX1 (flatnonzero exY1 0)
          ((exSt1.rs.choice (flatnonzero exY1 0) 1).1)
          (((exSt1.rs.choice (flatnonzero exY1 0) 1).2).randn 1 (n_features exX1)).1 1] = _
    rw [List.nil_append]
    have hsh : shrinkageOf [(0, 1)] 0 = 1 := rfl
    have htarget : flatnonzero exY1 0 = [0, 1] := rfl
    have hboot : ((exSt1.rs.choice (flatnonzero exY1 0) 1).1) = [0] := rfl
    have hnoise : (((exSt1.rs.choice (flatnonzero exY1 0) 1).2).randn 1 (n_features exX1)).1 =
        [[(1 : ℝ)]] := rfl
    rw [hsh, hboot, hnoise, htarget]
    simp only [smoothedBlock, hf, hr1, List.map_singleton]
    rw [hscale]
    show [[[(1 : ℝ) * (1 * smoothing_constant 1 exX1.length * ([(1 : ℝ)].getD 0 0)) +
        (exX1.getD (([0] : List ℕ).getD 0 0) []).getD 0 0]]] = [[[smoothing_constant 1 exX1.length]]]
    norm_num
    rfl
  · show smoothing_constant 1 3 ≠ smoothing_constant 1 2
    rw [smoothing_constant, smoothing_constant]
    have hx : (0 : ℝ) ≤ 4 / ((((1 : ℕ) : ℝ) + 2) * ((3 : ℕ) : ℝ)) := by norm_num
    have hlt : (4 : ℝ) / ((((1 : ℕ) : ℝ) + 2) * ((3 : ℕ) : ℝ)) <
        4 / ((((1 : ℕ) : ℝ) + 2) * ((2 : ℕ) : ℝ)) := by norm_num
    have hz : (0 : ℝ) < 1 / (((1 : ℕ) : ℝ) + 4) := by norm_num
    exact ne_of_lt (Real.rpow_lt_rpow hx hlt hz)

end Imblearn
